import Mathlib

/-!
Verification of `openelex/base/publish.py`: file discovery
(`ResultFileFinder`), the abstract `BasePublisher`, and the concrete
`GitHubPublisher`.  The local filesystem and the remote GitHub API are
modelled explicitly; remote calls and observer notifications are recorded
as events in a trace, so that ordering and fail-fast properties can be
stated.
-/

namespace OpenElex

/-! ### POSIX path helpers (`os.path` on a POSIX host is `posixpath`) -/

/-- Characters after the last separator of a path, as in
`posixpath.basename`. -/
def basenameL : List Char → List Char
  | [] => []
  | c :: cs =>
    if c = '/' then basenameL cs
    else if '/' ∈ cs then basenameL cs
    else c :: cs

/-- Split a character list at its last dot: the part before the last dot
and the part from the last dot on, or `none` when no dot occurs. -/
def splitLastDot : List Char → Option (List Char × List Char)
  | [] => none
  | c :: cs =>
    match splitLastDot cs with
    | some (b, e) => some (c :: b, e)
    | none => if c = '.' then some ([], c :: cs) else none

/-- Model of `posixpath.splitext`: split off the extension at the last dot
of the last path segment, unless every character of that segment before
the dot is itself a dot (leading dots mark hidden files, not
extensions). -/
def splitextL (p : List Char) : List Char × List Char :=
  match splitLastDot (basenameL p) with
  | none => (p, [])
  | some (b, e) =>
    if b.any (fun c => c ≠ '.') then (p.take (p.length - e.length), e)
    else (p, [])

/-- Model of `posixpath.join` on two components. -/
def posixJoinL (a b : List Char) : List Char :=
  if b.head? = some '/' then b
  else if a = [] ∨ a.getLast? = some '/' then a ++ b
  else a ++ '/' :: b

/-- String wrapper for `basenameL`. -/
def basename (p : String) : String := ⟨basenameL p.data⟩

/-- String wrapper for `splitextL`. -/
def splitext (p : String) : String × String :=
  (⟨(splitextL p.data).fst⟩, ⟨(splitextL p.data).snd⟩)

/-- String wrapper for `posixJoinL`. -/
def posixJoin (a b : String) : String := ⟨posixJoinL a.data b.data⟩

/-! ### Module constants of `publish.py` -/

/-- Source constant `RAW_PREFIX = "raw"`. -/
def rawMarker : String := "raw"

/-- Source constant `CLEAN_PREFIX = "clean"`. -/
def cleanMarker : String := "clean"

/-- Modelled from the spec: the process-wide constant naming the country
root directory (`COUNTRY_DIR`), imported by the module from the package
root, which is not part of the embedded source.  The spec only says the
results tree lives under a configured root; no claim depends on the
concrete value. -/
def COUNTRY_DIR : String := "openelections/us"

/-- Source method `ResultFileFinder.results_dir`:
`os.path.join(COUNTRY_DIR, "bakery")`. -/
def results_dir : String := posixJoin COUNTRY_DIR "bakery"

/-! ### `GitHubPublisher.get_path` -/

/-- Source method `GitHubPublisher.get_path`: split `filename` into base
and extension, drop the directory component, and place the basename under
the raw marker directory when the pre-extension base ends with the raw
marker, otherwise under the clean marker directory. -/
def get_path (filename : String) : String :=
  let base := (splitext filename).fst
  let without_dir := basename filename
  if "raw".data.isSuffixOf base.data then posixJoin rawMarker without_dir
  else posixJoin cleanMarker without_dir

/-! ### Lemmas about the path helpers -/

lemma sep_not_mem_basenameL (p : List Char) : '/' ∉ basenameL p := by
  induction p with
  | nil => simp [basenameL]
  | cons c cs ih =>
    by_cases hc : c = '/'
    · simpa [basenameL, hc] using ih
    · by_cases hm : '/' ∈ cs
      · simpa [basenameL, hc, hm] using ih
      · simp [basenameL, hc, hm]
        exact fun h => hc h.symm

lemma head_basenameL_ne_sep (p : List Char) :
    (basenameL p).head? ≠ some '/' := by
  cases h : basenameL p with
  | nil => simp [h]
  | cons c cs =>
    simp only [List.head?_cons]
    intro hc
    have hc2 : c = '/' := Option.some.inj hc
    have : '/' ∈ basenameL p := by
      rw [h, hc2]
      exact List.mem_cons_self '/' cs
    exact sep_not_mem_basenameL p this

lemma posixJoinL_plain (a b : List Char) (ha : a ≠ [])
    (ha2 : a.getLast? ≠ some '/') (hb : b.head? ≠ some '/') :
    posixJoinL a b = a ++ '/' :: b := by
  simp [posixJoinL, hb, ha, ha2]

lemma get_path_eq_raw (f : String)
    (h : "raw".data.isSuffixOf (splitext f).fst.data = true) :
    get_path f = "raw/" ++ basename f := by
  apply String.ext
  simp only [get_path, h, if_true, String.data_append]
  show posixJoinL rawMarker.data (basenameL f.data) =
    "raw/".data ++ (basename f).data
  rw [posixJoinL_plain rawMarker.data (basenameL f.data) (by decide)
    (by decide) (head_basenameL_ne_sep f.data)]
  rfl

lemma get_path_eq_clean (f : String)
    (h : "raw".data.isSuffixOf (splitext f).fst.data = false) :
    get_path f = "clean/" ++ basename f := by
  apply String.ext
  simp only [get_path, h, Bool.false_eq_true, if_false, String.data_append]
  show posixJoinL cleanMarker.data (basenameL f.data) =
    "clean/".data ++ (basename f).data
  rw [posixJoinL_plain cleanMarker.data (basenameL f.data) (by decide)
    (by decide) (head_basenameL_ne_sep f.data)]
  rfl

/-- C1: for every filename `f`, `get_path` splits `f` into base and
extension, discards the directory component, and returns the basename
under `"raw/"` exactly when the pre-extension base ends with the raw
marker, otherwise under `"clean/"`; the join uses the forward-slash
separator and the retained component contains no separator. -/
theorem get_path_spec (f : String) :
    ("raw".data.isSuffixOf (splitext f).fst.data = true →
        get_path f = "raw/" ++ basename f) ∧
    ("raw".data.isSuffixOf (splitext f).fst.data = false →
        get_path f = "clean/" ++ basename f) ∧
    '/' ∉ (basename f).data := by
  refine ⟨get_path_eq_raw f, get_path_eq_clean f, ?_⟩
  exact sep_not_mem_basenameL f.data

/-- Witness for C1 at two concrete filenames, one raw and one clean. -/
theorem get_path_spec_witness :
    get_path "subdir/x__raw.csv" = "raw/" ++ basename "subdir/x__raw.csv" ∧
    get_path "y.csv" = "clean/" ++ basename "y.csv" :=
  ⟨(get_path_spec "subdir/x__raw.csv").1 (by decide),
    (get_path_spec "y.csv").2.1 (by decide)⟩

/-- C10: classification as raw tests only that the extension-stripped base
ends with the three characters of the raw marker, with no requirement of a
preceding double-underscore separator; in particular
`"20140101__ny__withdraw.csv"` is placed under `"raw/"` although its base
does not end with a distinct `"__raw"` segment. -/
theorem get_path_raw_needs_no_separator :
    (∀ f : String, "raw".data.isSuffixOf (splitext f).fst.data = true →
        get_path f = "raw/" ++ basename f) ∧
    get_path "20140101__ny__withdraw.csv" = "raw/20140101__ny__withdraw.csv" ∧
    "__raw".data.isSuffixOf
      (splitext "20140101__ny__withdraw.csv").fst.data = false := by
  refine ⟨get_path_eq_raw, ?_, by decide⟩
  have h := get_path_eq_raw "20140101__ny__withdraw.csv" (by decide)
  rw [h]
  decide

/-- Witness for C10 at a concrete filename whose base ends in the raw
marker without any separator before it. -/
theorem get_path_raw_needs_no_separator_witness :
    get_path "abcraw.json" = "raw/" ++ basename "abcraw.json" :=
  get_path_raw_needs_no_separator.1 "abcraw.json" (by decide)

/-! ### `GitHubPublisher.results_repo_name` -/

/-- Model of Python `str.lower` on the underlying character list (the
module applies it to ASCII state abbreviations). -/
def lower (s : String) : String := ⟨s.data.map Char.toLower⟩

/-- Source method `GitHubPublisher.results_repo_name`: the fixed template
applied to the lowercased state abbreviation. -/
def results_repo_name (state : String) : String :=
  "openelections-results-" ++ lower state

/-- C8: `results_repo_name` equals the fixed template applied to the
lowercased jurisdiction code; it is a pure function of its input and is
invariant under the casing of the input. -/
theorem results_repo_name_spec (s t : String) :
    results_repo_name s = "openelections-results-" ++ lower s ∧
    (lower s = lower t → results_repo_name s = results_repo_name t) := by
  refine ⟨rfl, fun h => ?_⟩
  unfold results_repo_name
  rw [h]

/-- Witness for C8: the uppercase and lowercase spellings of one code give
the same repository name. -/
theorem results_repo_name_spec_witness :
    results_repo_name "NY" = results_repo_name "ny" :=
  (results_repo_name_spec "NY" "ny").2 (by decide)

/-! ### `ResultFileFinder.build_glob` and `get_filenames`

The module matches shell-style patterns via `glob.glob`; the patterns it
builds contain only literal characters and the `*` and `?` wildcards, so
the matcher is modelled for those.  `glob.glob` splits its argument back
into the directory part and the basename pattern, lists the directory
(yielding nothing when the directory is missing) and keeps the entries
accepted by `fnmatch`, skipping hidden files unless the pattern itself
starts with a dot. -/

/-- The basename part of the pattern of `ResultFileFinder.build_glob`:
the date-filter bit (Python truthiness: `None` and the empty string both
fall back to a bare wildcard; a wildcard is appended when the filter is
shorter than six characters), the state, a wildcard, and, when `raw` is
set, the raw marker, joined on double underscores, with the extension
appended directly. -/
def filenameGlob (state ext : String) (datefilter : Option String)
    (raw : Bool) : String :=
  let datefilter_bit :=
    match datefilter with
    | some d => if d = "" then "*" else if d.length < 6 then d ++ "*" else d
    | none => "*"
  let filename_bits := [datefilter_bit, state, "*"] ++
    (if raw then [rawMarker] else [])
  String.intercalate "__" filename_bits ++ ext

/-- Source method `ResultFileFinder.build_glob`: the basename pattern
joined onto the search directory with `os.path.join`. -/
def build_glob (state search_dir ext : String) (datefilter : Option String)
    (raw : Bool) : String :=
  posixJoin search_dir (filenameGlob state ext datefilter raw)

/-- The pattern exactly as the spec words it: join on a double-underscore
separator the date-filter segment (the provided filter with a trailing
wildcard appended iff its length is below six, or a bare wildcard if no
filter was given), the jurisdiction code, a wildcard segment and, only
when raw is requested, the raw-marker segment, followed directly by the
extension. -/
def specGlobPattern (state search_dir ext : String)
    (datefilter : Option String) (raw : Bool) : String :=
  let dfSeg :=
    match datefilter with
    | none => "*"
    | some d => if d.length < 6 then d ++ "*" else d
  posixJoin search_dir
    (String.intercalate "__"
      ([dfSeg, state, "*"] ++ if raw then ["raw"] else []) ++ ext)

/-- C2: the pattern built by `build_glob` is exactly the one the spec
describes, for every jurisdiction code, extension, search directory,
optional date filter and raw flag. -/
theorem build_glob_spec (state dir ext : String) (df : Option String)
    (raw : Bool) :
    build_glob state dir ext df raw = specGlobPattern state dir ext df raw := by
  cases df with
  | none => rfl
  | some d =>
    by_cases hd : d = ""
    · subst hd
      simp [build_glob, filenameGlob, specGlobPattern, rawMarker]
    · by_cases hl : d.length < 6 <;>
        simp [build_glob, filenameGlob, specGlobPattern, rawMarker, hd, hl]

/-- Model of `fnmatch.fnmatch` for patterns made of literal characters and
the wildcards `*` (any sequence) and `?` (any single character), the only
pattern characters this module produces. -/
def fnmatchL : List Char → List Char → Bool
  | [], cs => cs.isEmpty
  | '*' :: ps, cs => cs.tails.any (fun t => fnmatchL ps t)
  | _ :: _, [] => false
  | p :: ps, c :: cs => (p = '?' || p = c) && fnmatchL ps cs

/-- Matching as `glob.glob` applies it to a directory entry: hidden
entries are only matched by patterns that themselves start with a dot. -/
def globMatch (pat name : List Char) : Bool :=
  if name.head? = some '.' ∧ pat.head? ≠ some '.' then false
  else fnmatchL pat name

/-- Model of `glob.glob` restricted to the shapes this module produces (a
wildcard-free directory joined with a basename pattern): the filesystem is
a list of directories with their entry names; a directory missing from the
filesystem yields no matches, and matching entries are returned joined
onto the directory. -/
def globGlob (fs : List (String × List String)) (dir pat : String) :
    List String :=
  match fs.find? (fun e => e.fst == dir) with
  | none => []
  | some e =>
    (e.snd.filter (fun name => globMatch pat.data name.data)).map
      (fun name => posixJoin dir name)

/-- Source tuple `extensions = (".csv", ".json")` of
`ResultFileFinder.get_filenames`. -/
def EXTENSIONS : List String := [".csv", ".json"]

/-- The search directory actually used by `get_filenames`: the argument
when given, else `results_dir`. -/
def resolveDir (search_dir : Option String) : String :=
  match search_dir with
  | none => results_dir
  | some s => s

/-- Source method `ResultFileFinder.get_filenames`: for each supported
extension, glob for the built pattern in the search directory and collect
all matches. -/
def get_filenames (fs : List (String × List String)) (state : String)
    (datefilter : Option String) (raw : Bool) (search_dir : Option String) :
    List String :=
  let sd := resolveDir search_dir
  EXTENSIONS.flatMap
    (fun ext => globGlob fs sd (filenameGlob state ext datefilter raw))

/-- C7: `get_filenames` is a total function that signals no error: it
returns the empty list when the search directory is absent from the
filesystem, and likewise when no entry of the directory matches the built
pattern of any supported extension. -/
theorem get_filenames_no_error (fs : List (String × List String))
    (state : String) (df : Option String) (raw : Bool)
    (sd : Option String) :
    (fs.find? (fun e => e.fst == resolveDir sd) = none →
        get_filenames fs state df raw sd = []) ∧
    (∀ e, fs.find? (fun e => e.fst == resolveDir sd) = some e →
        (∀ name ∈ e.snd, ∀ ext ∈ EXTENSIONS,
            globMatch (filenameGlob state ext df raw).data name.data = false) →
        get_filenames fs state df raw sd = []) := by
  constructor
  · intro h
    simp [get_filenames, EXTENSIONS, globGlob, h]
  · intro e he hm
    have hcsv : ∀ name ∈ e.snd,
        ¬ globMatch (filenameGlob state ".csv" df raw).data name.data = true := by
      intro name hn
      rw [hm name hn ".csv" (by simp [EXTENSIONS])]
      simp
    have hjson : ∀ name ∈ e.snd,
        ¬ globMatch (filenameGlob state ".json" df raw).data name.data = true := by
      intro name hn
      rw [hm name hn ".json" (by simp [EXTENSIONS])]
      simp
    simp [get_filenames, EXTENSIONS, globGlob, he,
      List.filter_eq_nil_iff.mpr hcsv, List.filter_eq_nil_iff.mpr hjson]

/-- Witness for C7: a filesystem with one directory holding one file that
matches no built pattern; both a missing directory and a match-free
directory give the empty result. -/
theorem get_filenames_no_error_witness :
    get_filenames [("d", ["x.txt"])] "ny" none false (some "nope") = [] ∧
    get_filenames [("d", ["x.txt"])] "ny" none false (some "d") = [] :=
  ⟨(get_filenames_no_error [("d", ["x.txt"])] "ny" none false
      (some "nope")).1 (by decide),
    (get_filenames_no_error [("d", ["x.txt"])] "ny" none false
      (some "d")).2 ("d", ["x.txt"]) (by decide) (by decide)⟩

/-! ### The remote repository model -/

/-- One entry of the recursive tree listing returned by the remote service
(`repo.tree(branch).recurse().tree`): a path and its content identifier. -/
structure TreeEntry where
  path : String
  sha : String
deriving DecidableEq

/-- Source method `GitHubPublisher.get_sha`: linearly scan the recursive
tree listing and return the sha of the first entry whose path equals the
requested path, or `none` when no entry matches. -/
def get_sha (tree : List TreeEntry) (path : String) : Option String :=
  match tree with
  | [] => none
  | e :: rest => if e.path = path then some e.sha else get_sha rest path

lemma get_sha_none_iff (tree : List TreeEntry) (p : String) :
    get_sha tree p = none ↔ ∀ e ∈ tree, e.path ≠ p := by
  induction tree with
  | nil => simp [get_sha]
  | cons a t ih =>
    by_cases ha : a.path = p
    · simp only [get_sha, ha, if_true]
      constructor
      · intro h
        exact absurd h (by simp)
      · intro h
        exact absurd ha (h a (List.mem_cons_self a t))
    · simp [get_sha, ha, ih]

lemma get_sha_first_match (p : String) :
    ∀ (pre post : List TreeEntry) (e : TreeEntry),
      (∀ x ∈ pre, x.path ≠ p) → e.path = p →
      get_sha (pre ++ e :: post) p = some e.sha := by
  intro pre
  induction pre with
  | nil =>
    intro post e _ he
    simp [get_sha, he]
  | cons a pre ih =>
    intro post e hx he
    have ha : a.path ≠ p := hx a (List.mem_cons_self a pre)
    simpa [get_sha, ha] using
      ih post e (fun x hxx => hx x (List.mem_cons_of_mem a hxx)) he

/-- C3: `get_sha` returns the not-found sentinel exactly when no entry of
the tree carries the requested path, and otherwise the sha of the first
matching entry, even when several entries share the path. -/
theorem get_sha_spec (tree : List TreeEntry) (p : String) :
    (get_sha tree p = none ↔ ∀ e ∈ tree, e.path ≠ p) ∧
    (∀ (pre post : List TreeEntry) (e : TreeEntry),
        tree = pre ++ e :: post → (∀ x ∈ pre, x.path ≠ p) → e.path = p →
        get_sha tree p = some e.sha) := by
  refine ⟨get_sha_none_iff tree p, ?_⟩
  intro pre post e htree hx he
  rw [htree]
  exact get_sha_first_match p pre post e hx he

/-- Witness for C3: a tree with three entries, two of which share a path;
an absent path gives the sentinel and the duplicated path gives the sha of
the first of the two entries. -/
theorem get_sha_spec_witness :
    get_sha [⟨"a", "s1"⟩, ⟨"b", "s2"⟩, ⟨"b", "s3"⟩] "zzz" = none ∧
    get_sha [⟨"a", "s1"⟩, ⟨"b", "s2"⟩, ⟨"b", "s3"⟩] "b" = some "s2" :=
  ⟨(get_sha_spec [⟨"a", "s1"⟩, ⟨"b", "s2"⟩, ⟨"b", "s3"⟩] "zzz").1.mpr
      (by decide),
    (get_sha_spec [⟨"a", "s1"⟩, ⟨"b", "s2"⟩, ⟨"b", "s3"⟩] "b").2
      [⟨"a", "s1"⟩] [⟨"b", "s3"⟩] ⟨"b", "s2"⟩ rfl (by decide) rfl⟩

/-! ### `GitHubPublisher.publish_file` as a trace of effects

`publish_file` performs, in source order: the `pre_publish` notification,
the computation of the destination path, the local read, the remote sha
lookup, exactly one remote write (update when a sha was found, create
otherwise), and the `post_publish` notification.  Each effect is recorded
as an event; the local read and the remote write may fail, in which case
the later events do not occur and the error propagates. -/

/-- Events of one `publish_file` call, in the order they are issued. -/
inductive FileEvent
  | preSignal (filename : String)
  | readLocal (filename : String)
  | shaLookup (path : String)
  | updateFile (path msg content sha : String)
  | createFile (path msg content : String)
  | postSignal (filename : String)
deriving DecidableEq

/-- Errors surfacing from the module: the local read failing, a remote
call failing, and the Python errors relevant to the abstract base. -/
inductive PubError
  | ioError (filename : String)
  | remoteError
  | typeError (msg : String)
  | notImplementedError (msg : String)
deriving DecidableEq

/-- The remote repository handle as `publish_file` observes it: the tree
listing of the branch, plus whether the write call raises. -/
structure RemoteRepo where
  tree : List TreeEntry
  writeFails : Bool

/-- Source method `GitHubPublisher.publish_file`, with the local file
content passed as `none` when the read raises.  Returns the trace of
issued effects together with the error, if any, that propagated. -/
def publish_file (repo : RemoteRepo) (content : Option String)
    (filename : String) : List FileEvent × Option PubError :=
  let path := get_path filename
  match content with
  | none => ([.preSignal filename], some (.ioError filename))
  | some c =>
    let writeEv :=
      match get_sha repo.tree path with
      | some sha => FileEvent.updateFile path ("Update file " ++ path) c sha
      | none => FileEvent.createFile path ("Create file " ++ path) c
    if repo.writeFails then
      ([.preSignal filename, .readLocal filename, .shaLookup path, writeEv],
        some .remoteError)
    else
      ([.preSignal filename, .readLocal filename, .shaLookup path, writeEv,
        .postSignal filename], none)

/-- Whether an event is a remote write (create or update). -/
def isWrite : FileEvent → Bool
  | .updateFile _ _ _ _ => true
  | .createFile _ _ _ => true
  | _ => false

/-- C5: a `publish_file` call that reads its file issues exactly one
remote write: an update carrying the commit message `"Update file <path>"`
and the found sha when `get_sha` finds the destination path, else a create
carrying `"Create file <path>"`, where the path is the one `get_path`
computed. -/
theorem publish_file_single_write (repo : RemoteRepo) (c f : String) :
    (publish_file repo (some c) f).fst.filter isWrite =
      [match get_sha repo.tree (get_path f) with
        | some sha =>
          FileEvent.updateFile (get_path f) ("Update file " ++ get_path f) c sha
        | none =>
          FileEvent.createFile (get_path f)
            ("Create file " ++ get_path f) c] := by
  obtain ⟨tree, wf⟩ := repo
  cases h : get_sha tree (get_path f) <;> cases wf <;>
    simp [publish_file, isWrite, h]

/-- C9: the `pre_publish` notification is the first event of every
`publish_file` call, before all remote effects; when the remote write
completes the `post_publish` notification follows it, on the create path
and on the update path alike; when the remote write raises no
`post_publish` notification is emitted. -/
theorem publish_file_signal_order (tree : List TreeEntry) (c f : String) :
    (∀ (b : Bool) (cnt : Option String),
        (publish_file ⟨tree, b⟩ cnt f).fst.head? =
          some (FileEvent.preSignal f)) ∧
    ((publish_file ⟨tree, false⟩ (some c) f).fst =
      [FileEvent.preSignal f, FileEvent.readLocal f,
        FileEvent.shaLookup (get_path f),
        (match get_sha tree (get_path f) with
          | some sha =>
            FileEvent.updateFile (get_path f)
              ("Update file " ++ get_path f) c sha
          | none =>
            FileEvent.createFile (get_path f)
              ("Create file " ++ get_path f) c),
        FileEvent.postSignal f]) ∧
    FileEvent.postSignal f ∉ (publish_file ⟨tree, true⟩ (some c) f).fst := by
  refine ⟨?_, ?_, ?_⟩
  · intro b cnt
    cases cnt <;> cases b <;> simp [publish_file]
  · cases h : get_sha tree (get_path f) <;> simp [publish_file, h]
  · cases h : get_sha tree (get_path f) <;> simp [publish_file, h]

/-! ### `GitHubPublisher.publish` -/

/-- Events of one `publish` call: the per-file effects, each tagged with
the file being published, and the final merge of the head branch into the
base branch (`repo.merge("gh-pages", "master")`). -/
inductive PubEvent
  | perFile (filename : String) (ev : FileEvent)
  | merge (base head : String)
deriving DecidableEq

/-- The per-file loop of `GitHubPublisher.publish`, over the behaviour
`pf` of `publish_file` on each file: files are processed sequentially in
list order, and the first error stops the loop and propagates. -/
def publishLoop (pf : String → List FileEvent × Option PubError) :
    List String → List PubEvent × Option PubError
  | [] => ([], none)
  | f :: rest =>
    let r := pf f
    let tagged := r.fst.map (PubEvent.perFile f)
    match r.snd with
    | some e => (tagged, some e)
    | none =>
      let rr := publishLoop pf rest
      (tagged ++ rr.fst, rr.snd)

/-- Source method `GitHubPublisher.publish` after file discovery: run the
per-file loop and, only when every file succeeded, issue the single merge
of the master branch into the gh-pages branch. -/
def publishRun (pf : String → List FileEvent × Option PubError)
    (files : List String) : List PubEvent × Option PubError :=
  let r := publishLoop pf files
  match r.snd with
  | some e => (r.fst, some e)
  | none => (r.fst ++ [PubEvent.merge "gh-pages" "master"], none)

/-- `GitHubPublisher.publish` in full: publish every discovered file via
`publish_file` and then merge, with `readF` giving the content of each
local file (or `none` when its read raises). -/
def GitHubPublisher_publish (fs : List (String × List String))
    (repo : RemoteRepo) (readF : String → Option String) (state : String)
    (datefilter : Option String) (raw : Bool) :
    List PubEvent × Option PubError :=
  publishRun (fun f => publish_file repo (readF f) f)
    (get_filenames fs state datefilter raw none)

/-- Whether an event is the branch merge. -/
def isMergeEv : PubEvent → Bool
  | .merge _ _ => true
  | _ => false

lemma filter_isMergeEv_flatMap (F : String → List FileEvent) :
    ∀ files : List String,
      ((files.flatMap (fun g => (F g).map (PubEvent.perFile g))).filter
        isMergeEv) = [] := by
  intro files
  induction files with
  | nil => simp
  | cons f rest ih =>
    rw [List.flatMap_cons, List.filter_append, ih, List.append_nil]
    induction F f with
    | nil => simp
    | cons a l ihl => simp [isMergeEv, ihl]

lemma publishLoop_ok (pf : String → List FileEvent × Option PubError) :
    ∀ files : List String, (∀ g ∈ files, (pf g).snd = none) →
      publishLoop pf files =
        (files.flatMap (fun g => (pf g).fst.map (PubEvent.perFile g)),
          none) := by
  intro files
  induction files with
  | nil => intro _; rfl
  | cons f rest ih =>
    intro h
    have hf : (pf f).snd = none := h f (List.mem_cons_self f rest)
    have hr := ih (fun g hg => h g (List.mem_cons_of_mem f hg))
    simp [publishLoop, hf, hr]

lemma publishLoop_fail (pf : String → List FileEvent × Option PubError)
    (e : PubError) :
    ∀ (pre : List String) (f : String) (post : List String),
      (∀ g ∈ pre, (pf g).snd = none) → (pf f).snd = some e →
      publishLoop pf (pre ++ f :: post) =
        ((pre ++ [f]).flatMap (fun g => (pf g).fst.map (PubEvent.perFile g)),
          some e) := by
  intro pre
  induction pre with
  | nil =>
    intro f post _ hf
    simp [publishLoop, hf]
  | cons a pre ih =>
    intro f post hx hf
    have ha : (pf a).snd = none := hx a (List.mem_cons_self a pre)
    have hr := ih f post (fun g hg => hx g (List.mem_cons_of_mem a hg)) hf
    simp [publishLoop, ha, hr]

/-- C4: the per-file loop of `publish` is sequential in list order with no
isolation between failures.  When every file succeeds, the trace is the
per-file traces in order followed by exactly one merge of master into
gh-pages, issued after all files.  When some file fails and every file
before it succeeded, the trace stops at the failing file, the later files
contribute nothing, no merge is ever issued, and the error propagates. -/
theorem publishRun_fail_fast (pf : String → List FileEvent × Option PubError) :
    (∀ files : List String, (∀ g ∈ files, (pf g).snd = none) →
        publishRun pf files =
          (files.flatMap (fun g => (pf g).fst.map (PubEvent.perFile g)) ++
            [PubEvent.merge "gh-pages" "master"], none) ∧
        (publishRun pf files).fst.filter isMergeEv =
          [PubEvent.merge "gh-pages" "master"]) ∧
    (∀ (pre : List String) (f : String) (post : List String) (e : PubError),
        (∀ g ∈ pre, (pf g).snd = none) → (pf f).snd = some e →
        publishRun pf (pre ++ f :: post) =
          ((pre ++ [f]).flatMap
            (fun g => (pf g).fst.map (PubEvent.perFile g)), some e) ∧
        (publishRun pf (pre ++ f :: post)).fst.filter isMergeEv = []) := by
  constructor
  · intro files h
    have hw := publishLoop_ok pf files h
    have h1 : publishRun pf files =
        (files.flatMap (fun g => (pf g).fst.map (PubEvent.perFile g)) ++
          [PubEvent.merge "gh-pages" "master"], none) := by
      simp [publishRun, hw]
    refine ⟨h1, ?_⟩
    rw [h1]
    simp [List.filter_append, filter_isMergeEv_flatMap, isMergeEv]
  · intro pre f post e h hf
    have hw := publishLoop_fail pf e pre f post h hf
    have h1 : publishRun pf (pre ++ f :: post) =
        ((pre ++ [f]).flatMap
          (fun g => (pf g).fst.map (PubEvent.perFile g)), some e) := by
      simp [publishRun, hw]
    refine ⟨h1, ?_⟩
    rw [h1]
    exact filter_isMergeEv_flatMap _ (pre ++ [f])

/-- A concrete per-file behaviour for the C4 witness: the repository is
empty and every write succeeds, but the local read of `"bad"` raises. -/
def pfWitness (f : String) : List FileEvent × Option PubError :=
  publish_file ⟨[], false⟩ (if f = "bad" then none else some "x") f

/-- Witness for C4: with the middle file failing its local read, the run
propagates that error and issues no merge. -/
theorem publishRun_fail_fast_witness :
    (publishRun pfWitness ["a", "bad", "c"]).snd =
      some (PubError.ioError "bad") ∧
    (publishRun pfWitness ["a", "bad", "c"]).fst.filter isMergeEv = [] := by
  have h := (publishRun_fail_fast pfWitness).2 ["a"] "bad" ["c"]
    (PubError.ioError "bad")
    (by intro g hg; simp at hg; subst hg; decide)
    (by decide)
  simp only [List.cons_append, List.nil_append] at h
  exact ⟨by rw [h.1], h.2⟩

/-! ### `BasePublisher.publish` -/

/-- Source method `BasePublisher.publish`: the body is
`raise NotImplemented("You must implement this method in a subclass")`.
`NotImplemented` is the non-callable singleton, not the
`NotImplementedError` exception class, so evaluating the call expression
makes the interpreter raise a `TypeError` before the raise statement can
act; the error escaping to the caller is therefore a `TypeError`. -/
def BasePublisher_publish (state : String) (datefilter : Option String)
    (raw : Bool) : Except PubError Unit :=
  Except.error (PubError.typeError "NotImplementedType object is not callable")

/-- C6: calling `publish` on the abstract base fails for all arguments
with an uncaught error fatal to the caller; the error is a `TypeError`
raised from calling the `NotImplemented` singleton, not a
`NotImplementedError`-kind error as the spec states. -/
theorem base_publish_raises_type_error :
    (∀ (s : String) (df : Option String) (r : Bool),
        BasePublisher_publish s df r =
          Except.error
            (PubError.typeError "NotImplementedType object is not callable")) ∧
    (∀ (s : String) (df : Option String) (r : Bool) (m : String),
        BasePublisher_publish s df r ≠
          Except.error (PubError.notImplementedError m)) := by
  constructor
  · intro s df r
    rfl
  · intro s df r m h
    simp [BasePublisher_publish] at h

end OpenElex
